import Mathlib

/- Verification of the surgical-sim path-correction core: the segment detector
   (src/lib/pathutils.py, _detect_segments), the gate-trajectory generator and
   the trajectory-correction recurrence (src/tests/pathplanning/path_correction.py).

   Modelling conventions.  Floating-point values are modelled as rationals.
   The two irrational-valued library functions the code calls, np.linalg.norm's
   final square root and np.sin (together with np.pi), enter the embedding as
   explicit parameters collected in a FloatModel, so every definition stays
   computable; theorems about concrete runs are instantiated with a model that
   is exact at every value the concrete trace evaluates.  Division follows the
   Lean convention x / 0 = 0; wherever a claim depends on the IEEE behaviour
   (division by zero yields inf or NaN and execution continues) that divergence
   is recorded with the claim.  A numpy IndexError (scalar index out of range)
   and a scipy cdist ValueError (column-count mismatch) abort the script, and
   are modelled by Option.none; numpy SLICE reads do not raise and are modelled
   by the truncating List.drop/List.take. -/

namespace SurgicalSim

/-- Abstract model of the float-valued library functions used by the code:
    sq stands for the square root that finishes np.linalg.norm, sinF for
    np.sin and piF for np.pi. -/
structure FloatModel where
  sq : ℚ → ℚ
  sinF : ℚ → ℚ
  piF : ℚ

/-- A 3-dimensional vector (numpy float array of length 3). -/
structure Vec3 where
  x : ℚ
  y : ℚ
  z : ℚ
deriving DecidableEq, Repr, Inhabited

namespace Vec3

def zero : Vec3 := ⟨0, 0, 0⟩

instance : Add Vec3 := ⟨fun a b => ⟨a.x + b.x, a.y + b.y, a.z + b.z⟩⟩

instance : Sub Vec3 := ⟨fun a b => ⟨a.x - b.x, a.y - b.y, a.z - b.z⟩⟩

/-- Elementwise multiplication by a scalar (numpy array * scalar). -/
def scale (c : ℚ) (v : Vec3) : Vec3 := ⟨c * v.x, c * v.y, c * v.z⟩

/-- Elementwise division by a scalar (numpy array / scalar). -/
def divQ (v : Vec3) (c : ℚ) : Vec3 := ⟨v.x / c, v.y / c, v.z / c⟩

/-- Squared Euclidean norm; np.linalg.norm(v) is modelled as sq v.normSq. -/
def normSq (v : Vec3) : ℚ := v.x ^ 2 + v.y ^ 2 + v.z ^ 2

end Vec3

/-- np.clip for scalars: clip x into the interval from lo to hi. -/
def clip (x lo hi : ℚ) : ℚ := min (max x lo) hi

/-- Finite square-root table backing the concrete FloatModel: it returns the
    true square root at every perfect rational square the concrete traces of
    this file evaluate the norm at, which are exactly the listed arguments. -/
def sqVals : ℚ → ℚ := fun q =>
  if q = 0 then 0 else if q = 1 then 1 else if q = 4 then 2
  else if q = 16 then 4 else if q = 25 then 5 else if q = 64 then 8
  else if q = 1 / 400 then 1 / 20 else if q = 1 / 10000 then 1 / 100 else 0

/-- Concrete FloatModel used by the closed theorems.  Its square root agrees
    with the real one at every argument the concrete traces evaluate (perfect
    rational squares, see sqVals), and its sine stands in for np.sin on traces
    whose sine arguments are all integer multiples of pi (where the real sine
    is 0: every concrete path here has its time samples at multiples of 1/4,
    making 2*pi*4*t/t_total a multiple of pi); the pi stand-in only ever feeds
    those sine arguments. -/
def floatModel0 : FloatModel := ⟨sqVals, fun _ => 0, 0⟩

/- Column-layout constants.  Modelled from the spec: the constants module
   (surgicalsim.lib.constants) of this repository is not under src/; spec
   section 6 fixes the sample layout [time, gate_1 .. gate_G (3 wide each),
   tooltip position (3 wide), optional trailing rating], with the gate count
   G_NUM_GATES a configuration constant, kept here as a parameter numGates. -/

/-- Modelled from the spec: index of the time column. -/
def G_TIME_IDX : ℕ := 0

/-- Modelled from the spec: first gate column. -/
def G_GATE_IDX : ℕ := 1

/-- Modelled from the spec: width of one gate sub-vector. -/
def G_NUM_GATE_DIMS : ℕ := 3

/-- Modelled from the spec: width of the tooltip-position sub-vector. -/
def G_NUM_POS_DIMS : ℕ := 3

/-- Modelled from the spec: first tooltip-position column, directly after the
    numGates gate sub-vectors. -/
def G_POS_IDX (numGates : ℕ) : ℕ := G_GATE_IDX + G_NUM_GATE_DIMS * numGates

/-- From path_correction.py: t_total = 20.0 [s]. -/
def t_total : ℚ := 20

/-- A recorded path: a dense numeric matrix, one row per sample. -/
abbrev Matrix := List (List ℚ)

/-- numpy row slice row[a:a+3] packed as a Vec3; numpy raises a broadcast
    error when an arithmetic partner of the slice has a different shape, which
    is modelled by none for slices that are not exactly 3 wide. -/
def toVec3 : List ℚ → Option Vec3
  | [a, b, c] => some ⟨a, b, c⟩
  | _ => none

/-- Sum of squared differences of two equal-length rows (the inside of one
    Euclidean cdist entry). -/
def sumSqDiff (r s : List ℚ) : ℚ := ((r.zip s).map (fun p => (p.1 - p.2) ^ 2)).sum

/-- scipy.spatial.distance.cdist(XA, [xb], metric=euclidean)[:,0]: checks that
    XA and XB have the same number of columns (raising ValueError otherwise,
    modelled by none) and returns the distance of every XA row to xb. -/
def cdist0 (sq : ℚ → ℚ) (xa : Matrix) (xb : List ℚ) : Option (List ℚ) :=
  if xa.all (fun r => r.length == xb.length) then
    some (xa.map (fun r => sq (sumSqDiff r xb)))
  else none

/-- np.argmin: index of the first occurrence of the minimum; raises on an
    empty array (modelled by none). -/
def argminPair : List ℚ → Option (ℕ × ℚ)
  | [] => none
  | v :: t =>
      match argminPair t with
      | none => some (0, v)
      | some (i, w) => if w < v then some (i + 1, w) else some (0, v)

def argmin (l : List ℚ) : Option ℕ := (argminPair l).map (fun p => p.1)

/-- The distance column computed for one non-last gate inside
    pathutils._detect_segments: cdist(data[:, G_POS_IDX:],
    data[:, gate_start:gate_end])[:, 0], whose column 0 measures against the
    gate sub-vector of sample 0. -/
def gate_dists (sq : ℚ → ℚ) (numGates : ℕ) (data : Matrix) (cur_gate : ℕ) :
    Option (List ℚ) :=
  (data.get? 0).bind fun row0 =>
    cdist0 sq (data.map (fun r => r.drop (G_POS_IDX numGates)))
      ((row0.drop (G_GATE_IDX + cur_gate * 3)).take G_NUM_GATE_DIMS)

/-- One iteration of the _detect_segments loop: the last gate's segment end is
    the path length; every other gate's is the argmin of its distance column. -/
def segment_end (sq : ℚ → ℚ) (numGates : ℕ) (data : Matrix) (cur_gate : ℕ) :
    Option ℕ :=
  if cur_gate = numGates - 1 then some data.length
  else (gate_dists sq numGates data cur_gate).bind fun dists => argmin dists

def detectFrom (sq : ℚ → ℚ) (numGates : ℕ) (data : Matrix) :
    ℕ → ℕ → Option (List ℕ)
  | 0, _ => some []
  | count + 1, g =>
      (segment_end sq numGates data g).bind fun e =>
        (detectFrom sq numGates data count (g + 1)).bind fun rest =>
          some (e :: rest)

/-- pathutils._detect_segments: one segment end per configured gate. -/
def detect_segments (sq : ℚ → ℚ) (numGates : ℕ) (data : Matrix) :
    Option (List ℕ) :=
  detectFrom sq numGates data numGates 0

/-- path_correction.generate_gate_pos, with the hard-coded amplitude 0.02
    exposed as the parameter A (spec section 6 lists the amplitude as a
    configuration option); the source value is A_src below.  Reads the gate
    position from sample 0, then displaces axis 1 by A*sin(2*pi*f*t/t_total)
    with f = 4.0.  The source copies the row slice before mutating it, so the
    path is never written to; the embedding is a pure function of (t, path,
    segment_num). -/
def generate_gate_pos (mdl : FloatModel) (A : ℚ) (t : ℚ) (path : Matrix)
    (segment_num : ℕ) : Option Vec3 :=
  (path.get? 0).bind fun row0 =>
    let gate_start_col := G_GATE_IDX + G_NUM_GATE_DIMS * segment_num
    (toVec3 ((row0.drop gate_start_col).take G_NUM_POS_DIMS)).bind fun gate_pos =>
      let f : ℚ := 4
      some ⟨gate_pos.x, gate_pos.y + A * mdl.sinF (2 * mdl.piF * f * t / t_total),
            gate_pos.z⟩

/-- Amplitude hard-coded in generate_gate_pos: 0.02. -/
def A_src : ℚ := 1 / 50

/-- Acceleration bound hard-coded in main: a_max = 1.0 [m/s^2]. -/
def a_max_src : ℚ := 1

/-- Mutable state threaded through the correction loop. -/
structure CorrState where
  x_path_offset : Vec3
  v_curr : Vec3
deriving DecidableEq, Repr, Inhabited

/-- The segment search at the top of each loop iteration: seg_idx = first j
    with i <= segments[j], defaulting to 0 when no j qualifies. -/
def find_seg_idx (segments : List ℕ) (i : ℕ) : ℕ :=
  match segments.findIdx? (fun e => decide (i ≤ e)) with
  | some j => j
  | none => 0

/-- Every quantity one iteration of the main correction loop computes, in
    source order.  xNewCorr, vNewCorr, aNewPre are the first assignments to
    x_new, v_new, a_new (before the clamp); aNew, vNew, xNew the final ones. -/
structure StepOut where
  segIdx : ℕ
  segEnd : ℕ
  tCurr : ℚ
  tNext : ℚ
  xCurr : Vec3
  xNext : Vec3
  dt : ℚ
  dx : Vec3
  v : Vec3
  xTarget : Vec3
  xGate : Vec3
  xNewCorr : Vec3
  vNewCorr : Vec3
  aNewPre : Vec3
  aNewNorm : ℚ
  aNewNormClipped : ℚ
  ratioUnclipped : ℚ
  aNew : Vec3
  dvNew : Vec3
  vNew : Vec3
  dxNew : Vec3
  xNew : Vec3
deriving DecidableEq, Repr, Inhabited

/-- One iteration of the main loop of path_correction.main (source lines
    34-98), for step i, in source order.  Scalar row indexing out of range
    (numpy IndexError, as in path[segments[seg_idx]] when the index is the
    path length) is modelled by none. -/
def corrStep (mdl : FloatModel) (A a_max : ℚ) (numGates : ℕ)
    (segments : List ℕ) (path : Matrix) (st : CorrState) (i : ℕ) :
    Option StepOut :=
  let seg_idx := find_seg_idx segments i
  (path.get? i).bind fun rowC =>
  (path.get? (i + 1)).bind fun rowN =>
  (rowC.get? G_TIME_IDX).bind fun tRawC =>
  (rowN.get? G_TIME_IDX).bind fun tRawN =>
  let t_curr := tRawC * t_total
  let t_next := tRawN * t_total
  (toVec3 ((rowC.drop (G_POS_IDX numGates)).take G_NUM_POS_DIMS)).bind fun xRecC =>
  (toVec3 ((rowN.drop (G_POS_IDX numGates)).take G_NUM_POS_DIMS)).bind fun xRecN =>
  let x_curr := xRecC + st.x_path_offset
  let x_next := xRecN + st.x_path_offset
  let dt := t_next - t_curr
  let dx := x_next - x_curr
  let v := dx.divQ dt
  (segments.get? seg_idx).bind fun seg_end =>
  (path.get? seg_end).bind fun rowT =>
  (toVec3 ((rowT.drop (G_POS_IDX numGates)).take G_NUM_POS_DIMS)).bind fun xRecT =>
  let x_target := xRecT + st.x_path_offset
  (generate_gate_pos mdl A t_curr path seg_idx).bind fun x_gate =>
  let x_new_corr := x_next + (x_gate - x_target)
  let v_new_corr := (x_new_corr - x_curr).divQ dt
  let a_new_pre := (v_new_corr - st.v_curr).divQ dt
  let a_new_norm := mdl.sq a_new_pre.normSq
  let a_new_norm_clipped := clip a_new_norm (-a_max) a_max
  let ratio_uncl := a_new_norm_clipped / a_new_norm
  let a_new := Vec3.scale ratio_uncl a_new_pre
  let dv_new := Vec3.scale dt a_new
  let v_new := st.v_curr + dv_new
  let dx_new := Vec3.scale dt v_new
  let x_new := x_curr + dx_new
  some { segIdx := seg_idx, segEnd := seg_end, tCurr := t_curr,
         tNext := t_next, xCurr := x_curr, xNext := x_next, dt := dt,
         dx := dx, v := v, xTarget := x_target, xGate := x_gate,
         xNewCorr := x_new_corr, vNewCorr := v_new_corr, aNewPre := a_new_pre,
         aNewNorm := a_new_norm, aNewNormClipped := a_new_norm_clipped,
         ratioUnclipped := ratio_uncl, aNew := a_new, dvNew := dv_new,
         vNew := v_new, dxNew := dx_new, xNew := x_new }

/-- The main loop: count remaining iterations, i the current step index; after
    each step v_curr becomes v_new and x_path_offset grows by dx_new - dx. -/
def corrSteps (mdl : FloatModel) (A a_max : ℚ) (numGates : ℕ)
    (segments : List ℕ) (path : Matrix) :
    ℕ → ℕ → CorrState → Option (List StepOut)
  | 0, _, _ => some []
  | count + 1, i, st =>
      (corrStep mdl A a_max numGates segments path st i).bind fun o =>
        (corrSteps mdl A a_max numGates segments path count (i + 1)
            ⟨st.x_path_offset + (o.dxNew - o.dx), o.vNew⟩).bind fun rest =>
          some (o :: rest)

/-- The correction run of path_correction.main with all per-step records kept:
    detect segments, then iterate the loop over steps 0 .. len(path)-2 (the
    loop body is skipped exactly at i = len(path)-1), starting from a zero
    offset and zero velocity. -/
def correction_records (mdl : FloatModel) (A a_max : ℚ) (numGates : ℕ)
    (path : Matrix) : Option (List StepOut) :=
  (detect_segments mdl.sq numGates path).bind fun segments =>
    corrSteps mdl A a_max numGates segments path (path.length - 1) 0
      ⟨Vec3.zero, Vec3.zero⟩

/-- path_correction.main's corrected path new_path: the x_new of every
    executed step, in order. -/
def main (mdl : FloatModel) (A a_max : ℚ) (numGates : ℕ) (path : Matrix) :
    Option (List Vec3) :=
  (correction_records mdl A a_max numGates path).map (List.map StepOut.xNew)

/-- The index the step-4 target lookup path[segments[seg_idx]] uses at step i
    (none when _detect_segments fails or seg_idx is out of range of the
    segment list). -/
def target_index (sq : ℚ → ℚ) (numGates : ℕ) (path : Matrix) (i : ℕ) :
    Option ℕ :=
  (detect_segments sq numGates path).bind fun segments =>
    segments.get? (find_seg_idx segments i)

/-- The companion full-record matrix (source lines 104-105):
    full_path = path[:-1].copy(); full_path[:, pos_cols] = new_path.  The
    input path is only read (the copy is mutated), so the embedding is a pure
    function. -/
def replace_pos_cols (numGates : ℕ) : Matrix → List Vec3 → Matrix
  | row :: rows, p :: ps =>
      (row.take (G_POS_IDX numGates) ++ [p.x, p.y, p.z]
        ++ row.drop (G_POS_IDX numGates + G_NUM_POS_DIMS))
        :: replace_pos_cols numGates rows ps
  | _, _ => []

def full_record (numGates : ℕ) (path : Matrix) (new_path : List Vec3) :
    Matrix :=
  replace_pos_cols numGates (path.take (path.length - 1)) new_path

/- Specification-side derived quantities, used only to state theorem
   hypotheses and conclusions about a path (never inside the embedding of the
   code itself). -/

/-- Row i of a matrix, defaulting to the empty row. -/
def rowD (path : Matrix) (i : ℕ) : List ℚ := (path.get? i).getD []

/-- Entry c of a row, defaulting to 0. -/
def qget (r : List ℚ) (c : ℕ) : ℚ := (r.get? c).getD 0

/-- The recorded tooltip position of sample i. -/
def posD (numGates : ℕ) (path : Matrix) (i : ℕ) : Vec3 :=
  ⟨qget (rowD path i) (G_POS_IDX numGates),
   qget (rowD path i) (G_POS_IDX numGates + 1),
   qget (rowD path i) (G_POS_IDX numGates + 2)⟩

/-- The recorded (normalized) time of sample i. -/
def timeD (path : Matrix) (i : ℕ) : ℚ := qget (rowD path i) G_TIME_IDX

/-- The time step dt the loop computes at step i. -/
def dtD (path : Matrix) (i : ℕ) : ℚ :=
  timeD path (i + 1) * t_total - timeD path i * t_total

/-- The recorded position of gate g as sample 0 stores it. -/
def gateBaseD (path : Matrix) (g : ℕ) : Vec3 :=
  ⟨qget (rowD path 0) (G_GATE_IDX + G_NUM_GATE_DIMS * g),
   qget (rowD path 0) (G_GATE_IDX + G_NUM_GATE_DIMS * g + 1),
   qget (rowD path 0) (G_GATE_IDX + G_NUM_GATE_DIMS * g + 2)⟩

/-- The velocity an unperturbed (identity) run carries into step i. -/
def vPred (numGates : ℕ) (path : Matrix) : ℕ → Vec3
  | 0 => Vec3.zero
  | i + 1 => (posD numGates path (i + 1) - posD numGates path i).divQ (dtD path i)

/-- The pre-clamp acceleration an unperturbed (identity) run computes at
    step i. -/
def aPred (numGates : ℕ) (path : Matrix) (i : ℕ) : Vec3 :=
  (vPred numGates path (i + 1) - vPred numGates path i).divQ (dtD path i)

/- Concrete paths used by the closed theorems.  All use the configured gate
   count 2 and the spec layout [time, gate0 (3 wide), gate1 (3 wide),
   tooltip position (3 wide)] (width 10); times are multiples of 1/4, so with
   t_total = 20 every np.sin argument 2*pi*4*t/t_total of a trace is an
   integer multiple of pi and the real sine of it is 0, matching floatModel0.
   All are valid Paths in the sense of spec section 3: non-decreasing times
   inside [0,1], uniform layout, one or more encoded gates. -/

/-- Three samples moving uniformly (0,0,0) to (1,0,0) to (2,0,0); gate 0 sits
    at (0,0,0), whose closest sample is sample 0, so segment 0 ends at index 0
    and every step from i = 1 on falls into the last segment. -/
def exPath3 : Matrix :=
  [[0,    0, 0, 0, 0, 0, 0, 0, 0, 0],
   [1/2,  0, 0, 0, 0, 0, 0, 1, 0, 0],
   [1,    0, 0, 0, 0, 0, 0, 2, 0, 0]]

/-- Three samples moving uniformly; gate 0 sits at (2,0,0), whose closest
    sample is the last one, so both steps stay in segment 0; step 1 has a
    zero pre-clamp acceleration. -/
def exPath5 : Matrix :=
  [[0,    2, 0, 0, 0, 0, 0, 0, 0, 0],
   [1/2,  2, 0, 0, 0, 0, 0, 1, 0, 0],
   [1,    2, 0, 0, 0, 0, 0, 2, 0, 0]]

/-- Two samples; gate 0 sits exactly at the recorded tooltip position of its
    segment-end sample, so the identity-correction hypotheses hold. -/
def exPath6 : Matrix :=
  [[0,    1, 0, 0, 0, 0, 0, 0, 0, 0],
   [1/2,  1, 0, 0, 0, 0, 0, 1, 0, 0]]

/-- Two samples; gate 0 sits at (5,0,0), away from the recorded tooltip
    position (1,0,0) of its segment-end sample. -/
def exPath7 : Matrix :=
  [[0,    5, 0, 0, 0, 0, 0, 0, 0, 0],
   [1/2,  5, 0, 0, 0, 0, 0, 1, 0, 0]]

/-- Two samples with identical timestamps (dt = 0). -/
def exPathDup : Matrix :=
  [[0,    1, 0, 0, 0, 0, 0, 0, 0, 0],
   [0,    1, 0, 0, 0, 0, 0, 1, 0, 0]]

/-- Three samples of which the first two are equidistant (distance 1) from
    gate 0 at (1,0,0): a tie for the segment detector. -/
def exPath9 : Matrix :=
  [[0,    1, 0, 0, 0, 0, 0, 0, 0, 0],
   [1/2,  1, 0, 0, 0, 0, 0, 2, 0, 0],
   [1,    1, 0, 0, 0, 0, 0, 9, 0, 0]]

/-- The record of step 0 of the run on exPath5. -/
def exStep5a : StepOut :=
  { segIdx := 0, segEnd := 2, tCurr := 0, tNext := 10,
    xCurr := ⟨0, 0, 0⟩, xNext := ⟨1, 0, 0⟩, dt := 10, dx := ⟨1, 0, 0⟩,
    v := ⟨1/10, 0, 0⟩, xTarget := ⟨2, 0, 0⟩, xGate := ⟨2, 0, 0⟩,
    xNewCorr := ⟨1, 0, 0⟩, vNewCorr := ⟨1/10, 0, 0⟩, aNewPre := ⟨1/100, 0, 0⟩,
    aNewNorm := 1/100, aNewNormClipped := 1/100, ratioUnclipped := 1,
    aNew := ⟨1/100, 0, 0⟩, dvNew := ⟨1/10, 0, 0⟩, vNew := ⟨1/10, 0, 0⟩,
    dxNew := ⟨1, 0, 0⟩, xNew := ⟨1, 0, 0⟩ }

/-- The record of step 1 of the run on exPath5: its pre-clamp acceleration is
    the zero vector, its norm is 0, and the code still divides the clipped
    norm by it. -/
def exStep5b : StepOut :=
  { segIdx := 0, segEnd := 2, tCurr := 10, tNext := 20,
    xCurr := ⟨1, 0, 0⟩, xNext := ⟨2, 0, 0⟩, dt := 10, dx := ⟨1, 0, 0⟩,
    v := ⟨1/10, 0, 0⟩, xTarget := ⟨2, 0, 0⟩, xGate := ⟨2, 0, 0⟩,
    xNewCorr := ⟨2, 0, 0⟩, vNewCorr := ⟨1/10, 0, 0⟩, aNewPre := ⟨0, 0, 0⟩,
    aNewNorm := 0, aNewNormClipped := 0, ratioUnclipped := 0,
    aNew := ⟨0, 0, 0⟩, dvNew := ⟨0, 0, 0⟩, vNew := ⟨1/10, 0, 0⟩,
    dxNew := ⟨1, 0, 0⟩, xNew := ⟨2, 0, 0⟩ }

/-- The record of the single step of the run on exPath7 (A = 0, a_max = 100):
    the gate-to-target displacement (4,0,0) moves the emitted position to
    (5,0,0), away from the recorded (1,0,0). -/
def exStep7 : StepOut :=
  { segIdx := 0, segEnd := 1, tCurr := 0, tNext := 10,
    xCurr := ⟨0, 0, 0⟩, xNext := ⟨1, 0, 0⟩, dt := 10, dx := ⟨1, 0, 0⟩,
    v := ⟨1/10, 0, 0⟩, xTarget := ⟨1, 0, 0⟩, xGate := ⟨5, 0, 0⟩,
    xNewCorr := ⟨5, 0, 0⟩, vNewCorr := ⟨1/2, 0, 0⟩, aNewPre := ⟨1/20, 0, 0⟩,
    aNewNorm := 1/20, aNewNormClipped := 1/20, ratioUnclipped := 1,
    aNew := ⟨1/20, 0, 0⟩, dvNew := ⟨1/2, 0, 0⟩, vNew := ⟨1/2, 0, 0⟩,
    dxNew := ⟨5, 0, 0⟩, xNew := ⟨5, 0, 0⟩ }

/-- The record of step 0 of the run on exPath3. -/
def exStep3a : StepOut :=
  { segIdx := 0, segEnd := 0, tCurr := 0, tNext := 10,
    xCurr := ⟨0, 0, 0⟩, xNext := ⟨1, 0, 0⟩, dt := 10, dx := ⟨1, 0, 0⟩,
    v := ⟨1/10, 0, 0⟩, xTarget := ⟨0, 0, 0⟩, xGate := ⟨0, 0, 0⟩,
    xNewCorr := ⟨1, 0, 0⟩, vNewCorr := ⟨1/10, 0, 0⟩, aNewPre := ⟨1/100, 0, 0⟩,
    aNewNorm := 1/100, aNewNormClipped := 1/100, ratioUnclipped := 1,
    aNew := ⟨1/100, 0, 0⟩, dvNew := ⟨1/10, 0, 0⟩, vNew := ⟨1/10, 0, 0⟩,
    dxNew := ⟨1, 0, 0⟩, xNew := ⟨1, 0, 0⟩ }

/-- The record of the single step of the run on exPathDup: dt = 0, and every
    division by it is carried out (values follow the model convention
    x / 0 = 0; IEEE doubles give inf and NaN instead, equally silently). -/
def exStepDup : StepOut :=
  { segIdx := 0, segEnd := 1, tCurr := 0, tNext := 0,
    xCurr := ⟨0, 0, 0⟩, xNext := ⟨1, 0, 0⟩, dt := 0, dx := ⟨1, 0, 0⟩,
    v := ⟨0, 0, 0⟩, xTarget := ⟨1, 0, 0⟩, xGate := ⟨1, 0, 0⟩,
    xNewCorr := ⟨1, 0, 0⟩, vNewCorr := ⟨0, 0, 0⟩, aNewPre := ⟨0, 0, 0⟩,
    aNewNorm := 0, aNewNormClipped := 0, ratioUnclipped := 0,
    aNew := ⟨0, 0, 0⟩, dvNew := ⟨0, 0, 0⟩, vNew := ⟨0, 0, 0⟩,
    dxNew := ⟨0, 0, 0⟩, xNew := ⟨0, 0, 0⟩ }

/- Helper lemmas. -/

theorem floatModel0_sq : floatModel0.sq = sqVals := rfl

theorem Vec3.add_def (a b : Vec3) :
    a + b = ⟨a.x + b.x, a.y + b.y, a.z + b.z⟩ := rfl

theorem Vec3.sub_def (a b : Vec3) :
    a - b = ⟨a.x - b.x, a.y - b.y, a.z - b.z⟩ := rfl

theorem Vec3.add_zero (a : Vec3) : a + Vec3.zero = a := by
  simp [Vec3.add_def, Vec3.zero]

theorem Vec3.sub_self (a : Vec3) : a - a = Vec3.zero := by
  simp [Vec3.sub_def, Vec3.zero]

theorem Vec3.zero_add (a : Vec3) : Vec3.zero + a = a := by
  simp [Vec3.add_def, Vec3.zero]

theorem Vec3.scale_one (a : Vec3) : Vec3.scale 1 a = a := by
  simp [Vec3.scale]

theorem Vec3.add_sub_cancel (a b : Vec3) : a + (b - a) = b := by
  simp [Vec3.add_def, Vec3.sub_def]

theorem Vec3.scale_divQ_cancel (c : ℚ) (hc : c ≠ 0) (a : Vec3) :
    Vec3.scale c (a.divQ c) = a := by
  simp [Vec3.scale, Vec3.divQ, mul_div_cancel₀, hc, mul_comm]

theorem Vec3.normSq_scale (c : ℚ) (a : Vec3) :
    (Vec3.scale c a).normSq = c ^ 2 * a.normSq := by
  simp [Vec3.scale, Vec3.normSq]; ring

/-- Row lookups below an in-range index succeed with the default-total value. -/
theorem get?_eq_some_rowD (path : Matrix) (i : ℕ) (h : i < path.length) :
    path.get? i = some (rowD path i) := by
  cases hx : path.get? i with
  | none => exact absurd (List.get?_eq_none.mp hx) (by omega)
  | some r => simp only [rowD, hx, Option.getD_some]

theorem get?_eq_some_qget (r : List ℚ) (c : ℕ) (h : c < r.length) :
    r.get? c = some (qget r c) := by
  cases hx : r.get? c with
  | none => exact absurd (List.get?_eq_none.mp hx) (by omega)
  | some v => simp only [qget, hx, Option.getD_some]

/-- A 3-wide slice of a long-enough row, elementwise. -/
theorem slice3 (r : List ℚ) (p : ℕ) (h : p + 3 ≤ r.length) :
    (r.drop p).take 3 = [qget r p, qget r (p + 1), qget r (p + 2)] := by
  rcases hdrop : r.drop p with _ | ⟨a, _ | ⟨b, _ | ⟨c, rest⟩⟩⟩
  · exfalso
    have hlen := congrArg List.length hdrop
    simp [List.length_drop] at hlen
    omega
  · exfalso
    have hlen := congrArg List.length hdrop
    simp [List.length_drop] at hlen
    omega
  · exfalso
    have hlen := congrArg List.length hdrop
    simp [List.length_drop] at hlen
    omega
  · have h0 : r.get? p = some a := by
      have := List.get?_drop r p 0
      simp only [hdrop] at this
      simpa using this.symm
    have h1 : r.get? (p + 1) = some b := by
      have := List.get?_drop r p 1
      simp only [hdrop] at this
      simpa using this.symm
    have h2 : r.get? (p + 2) = some c := by
      have := List.get?_drop r p 2
      simp only [hdrop] at this
      simpa using this.symm
    simp only [hdrop, List.take, qget, h0, h1, h2, Option.getD_some]

theorem toVec3_slice (r : List ℚ) (p : ℕ) (h : p + 3 ≤ r.length) :
    toVec3 ((r.drop p).take 3)
      = some ⟨qget r p, qget r (p + 1), qget r (p + 2)⟩ := by
  rw [slice3 r p h]; rfl

/-- The loop always emits exactly one record per iteration it completes. -/
theorem corrSteps_length (mdl : FloatModel) (A a_max : ℚ) (numGates : ℕ)
    (segments : List ℕ) (path : Matrix) :
    ∀ count i st l,
      corrSteps mdl A a_max numGates segments path count i st = some l →
      l.length = count := by
  intro count
  induction count with
  | zero =>
      intro i st l h
      rw [corrSteps] at h
      injection h with h2
      simp [← h2]
  | succ n ih =>
      intro i st l h
      rw [corrSteps] at h
      simp only [Option.bind_eq_some] at h
      obtain ⟨o, _, rest, hrest, hl⟩ := h
      injection hl with hl2
      subst hl2
      have := ih (i + 1) _ rest hrest
      simp [this]

/-- Whenever the corrector completes, its output length is the path length
    minus one. -/
theorem main_length (mdl : FloatModel) (A a_max : ℚ) (numGates : ℕ)
    (path : Matrix) (out : List Vec3)
    (h : main mdl A a_max numGates path = some out) :
    out.length = path.length - 1 := by
  simp only [main, correction_records, Option.map_eq_some',
    Option.bind_eq_some] at h
  obtain ⟨l, ⟨segs, hsegs, hsteps⟩, hout⟩ := h
  have := corrSteps_length mdl A a_max numGates segs path _ _ _ _ hsteps
  simp [← hout, this]

theorem detectFrom_length (sq : ℚ → ℚ) (numGates : ℕ) (data : Matrix) :
    ∀ count g l, detectFrom sq numGates data count g = some l →
      l.length = count := by
  intro count
  induction count with
  | zero =>
      intro g l h
      rw [detectFrom] at h
      injection h with h2
      simp [← h2]
  | succ n ih =>
      intro g l h
      rw [detectFrom] at h
      simp only [Option.bind_eq_some] at h
      obtain ⟨e, _, rest, hrest, hl⟩ := h
      injection hl with hl2
      subst hl2
      have := ih (g + 1) rest hrest
      simp [this]

theorem detectFrom_get? (sq : ℚ → ℚ) (numGates : ℕ) (data : Matrix) :
    ∀ count g l, detectFrom sq numGates data count g = some l →
      ∀ k, k < count → l.get? k = segment_end sq numGates data (g + k) := by
  intro count
  induction count with
  | zero => intro g l _ k hk; omega
  | succ n ih =>
      intro g l h k hk
      rw [detectFrom] at h
      simp only [Option.bind_eq_some] at h
      obtain ⟨e, he, rest, hrest, hl⟩ := h
      injection hl with hl2
      subst hl2
      cases k with
      | zero => simpa using he.symm
      | succ m =>
          have := ih (g + 1) rest hrest m (by omega)
          simp only [List.get?]
          rw [this]
          congr 1
          omega

theorem detect_segments_length (sq : ℚ → ℚ) (numGates : ℕ) (data : Matrix)
    (segs : List ℕ) (h : detect_segments sq numGates data = some segs) :
    segs.length = numGates :=
  detectFrom_length sq numGates data numGates 0 segs h

theorem detect_segments_get? (sq : ℚ → ℚ) (numGates : ℕ) (data : Matrix)
    (segs : List ℕ) (h : detect_segments sq numGates data = some segs)
    (k : ℕ) (hk : k < numGates) :
    segs.get? k = segment_end sq numGates data k := by
  have := detectFrom_get? sq numGates data numGates 0 segs h k hk
  simpa using this

theorem cdist0_some (sq : ℚ → ℚ) (xa : Matrix) (xb : List ℚ)
    (ds : List ℚ) (h : cdist0 sq xa xb = some ds) :
    ds = xa.map (fun r => sq (sumSqDiff r xb)) := by
  unfold cdist0 at h
  split at h
  · injection h with h2
    exact h2.symm
  · exact Option.noConfusion h

theorem cdist0_length (sq : ℚ → ℚ) (xa : Matrix) (xb : List ℚ)
    (ds : List ℚ) (h : cdist0 sq xa xb = some ds) : ds.length = xa.length := by
  rw [cdist0_some sq xa xb ds h]
  simp

theorem cdist0_get? (sq : ℚ → ℚ) (xa : Matrix) (xb : List ℚ)
    (ds : List ℚ) (h : cdist0 sq xa xb = some ds) (k : ℕ) :
    ds.get? k = (xa.get? k).map (fun r => sq (sumSqDiff r xb)) := by
  rw [cdist0_some sq xa xb ds h]
  simp [List.get?_map]

/-- np.argmin's result indexes its minimum, the minimum is global, and every
    strictly earlier entry is strictly larger (first occurrence). -/
theorem argminPair_ne_none (a : ℚ) (t : List ℚ) : argminPair (a :: t) ≠ none := by
  cases ht : argminPair t with
  | none => simp [argminPair, ht]
  | some p =>
      obtain ⟨i, w⟩ := p
      simp only [argminPair, ht]
      split <;> simp

theorem argminPair_spec :
    ∀ (l : List ℚ) (i : ℕ) (w : ℚ), argminPair l = some (i, w) →
      l.get? i = some w ∧ (∀ j v, l.get? j = some v → w ≤ v) ∧
        (∀ j, j < i → ∀ v, l.get? j = some v → w < v) := by
  intro l
  induction l with
  | nil => intro i w h; simp [argminPair] at h
  | cons a t ih =>
      intro i w h
      cases ht : argminPair t with
      | none =>
          have htnil : t = [] := by
            cases t with
            | nil => rfl
            | cons b u => exact absurd ht (argminPair_ne_none b u)
          subst htnil
          simp only [argminPair] at h
          injection h with h2
          obtain ⟨rfl, rfl⟩ : 0 = i ∧ a = w :=
            ⟨congrArg Prod.fst h2, congrArg Prod.snd h2⟩
          refine ⟨rfl, ?_, ?_⟩
          · intro j v hj
            cases j with
            | zero =>
                have hav : a = v := by simpa using hj
                exact le_of_eq hav
            | succ m => simp [List.get?] at hj
          · intro j hj v hv
            omega
      | some p =>
          obtain ⟨ti, tw⟩ := p
          simp only [argminPair, ht] at h
          obtain ⟨hget, hmin, hfirst⟩ := ih ti tw ht
          by_cases hlt : tw < a
          · rw [if_pos hlt] at h
            injection h with h2
            obtain ⟨rfl, rfl⟩ : ti + 1 = i ∧ tw = w :=
              ⟨congrArg Prod.fst h2, congrArg Prod.snd h2⟩
            refine ⟨by simpa using hget, ?_, ?_⟩
            · intro j v hj
              cases j with
              | zero =>
                  have : a = v := by simpa using hj
                  subst this
                  exact le_of_lt hlt
              | succ m => exact hmin m v (by simpa using hj)
            · intro j hj v hv
              cases j with
              | zero =>
                  have : a = v := by simpa using hv
                  subst this
                  exact hlt
              | succ m => exact hfirst m (by omega) v (by simpa using hv)
          · rw [if_neg hlt] at h
            injection h with h2
            obtain ⟨rfl, rfl⟩ : 0 = i ∧ a = w :=
              ⟨congrArg Prod.fst h2, congrArg Prod.snd h2⟩
            refine ⟨rfl, ?_, ?_⟩
            · intro j v hj
              cases j with
              | zero =>
                  have : a = v := by simpa using hj
                  exact le_of_eq this
              | succ m =>
                  have hv := hmin m v (by simpa using hj)
                  have : a ≤ tw := not_lt.mp hlt
                  linarith
            · intro j hj v hv
              omega

theorem argmin_spec (l : List ℚ) (e : ℕ) (h : argmin l = some e) :
    ∃ w, l.get? e = some w ∧ (∀ j v, l.get? j = some v → w ≤ v) ∧
      (∀ j, j < e → ∀ v, l.get? j = some v → w < v) := by
  simp only [argmin, Option.map_eq_some'] at h
  obtain ⟨⟨i, w⟩, hp, hi⟩ := h
  obtain ⟨h1, h2, h3⟩ := argminPair_spec l i w hp
  subst hi
  exact ⟨w, h1, h2, h3⟩

/-- Rows of a path are path members. -/
theorem rowD_mem (path : Matrix) (i : ℕ) (h : i < path.length) :
    rowD path i ∈ path :=
  List.get?_mem (get?_eq_some_rowD path i h)

/-- Projection form of every quantity one completed step stores for the
    clamping stage. -/
theorem corrStep_fields (mdl : FloatModel) (A a_max : ℚ) (numGates : ℕ)
    (segments : List ℕ) (path : Matrix) (st : CorrState) (i : ℕ) (o : StepOut)
    (h : corrStep mdl A a_max numGates segments path st i = some o) :
    o.aNewNorm = mdl.sq o.aNewPre.normSq ∧
    o.aNewNormClipped = clip o.aNewNorm (-a_max) a_max ∧
    o.ratioUnclipped = o.aNewNormClipped / o.aNewNorm ∧
    o.aNew = Vec3.scale o.ratioUnclipped o.aNewPre := by
  simp only [corrStep, Option.bind_eq_some] at h
  obtain ⟨rowC, _, rowN, _, tC, _, tN, _, xC, _, xN, _, sE, _, rowT, _, xT, _,
    xg, _, h⟩ := h
  injection h with h2
  subst h2
  exact ⟨rfl, rfl, rfl, rfl⟩

/-- Slice-to-Vec3 reads of the tooltip columns give the recorded position. -/
theorem toVec3_posD (numGates : ℕ) (path : Matrix) (i : ℕ)
    (h : G_POS_IDX numGates + 3 ≤ (rowD path i).length) :
    toVec3 (((rowD path i).drop (G_POS_IDX numGates)).take G_NUM_POS_DIMS)
      = some (posD numGates path i) := by
  have := toVec3_slice (rowD path i) (G_POS_IDX numGates) h
  simpa [G_NUM_POS_DIMS, posD] using this

/-- Slice-to-Vec3 reads of gate g's columns in sample 0 give the recorded
    gate position. -/
theorem toVec3_gateBaseD (path : Matrix) (g : ℕ)
    (h : G_GATE_IDX + G_NUM_GATE_DIMS * g + 3 ≤ (rowD path 0).length) :
    toVec3 (((rowD path 0).drop (G_GATE_IDX + G_NUM_GATE_DIMS * g)).take
      G_NUM_POS_DIMS) = some (gateBaseD path g) := by
  have := toVec3_slice (rowD path 0) (G_GATE_IDX + G_NUM_GATE_DIMS * g) h
  simpa [G_NUM_POS_DIMS, gateBaseD] using this

/-- With amplitude 0 the generator returns the recorded gate position of
    sample 0 unchanged, whatever the time. -/
theorem generate_gate_pos_zero (mdl : FloatModel) (t : ℚ) (path : Matrix)
    (g : ℕ) (hn : 0 < path.length)
    (h : G_GATE_IDX + G_NUM_GATE_DIMS * g + 3 ≤ (rowD path 0).length) :
    generate_gate_pos mdl 0 t path g = some (gateBaseD path g) := by
  rw [generate_gate_pos, get?_eq_some_rowD path 0 hn, Option.some_bind]
  simp only [toVec3_gateBaseD path g h, Option.some_bind]
  simp [gateBaseD]

/-- One loop iteration under the identity conditions: zero offset in, velocity
    vPred i in; it emits the recorded next position, carries velocity
    vPred (i+1), and changes the offset by zero. -/
theorem corrStep_identity (mdl : FloatModel) (amax : ℚ) (G : ℕ)
    (segs : List ℕ) (path : Matrix) (i : ℕ)
    (hw : ∀ r ∈ path, r.length = 4 + 3 * G)
    (hG : segs.length = G)
    (hi : i + 1 < path.length)
    (hdt : dtD path i ≠ 0)
    (e : ℕ)
    (hseg : segs.get? (find_seg_idx segs i) = some e)
    (he : e < path.length)
    (hgate : gateBaseD path (find_seg_idx segs i) = posD G path e)
    (hs0 : 0 ≤ mdl.sq (aPred G path i).normSq)
    (hsne : mdl.sq (aPred G path i).normSq ≠ 0)
    (hsmax : mdl.sq (aPred G path i).normSq ≤ amax) :
    ∃ o, corrStep mdl 0 amax G segs path ⟨Vec3.zero, vPred G path i⟩ i
        = some o ∧
      o.xNew = posD G path (i + 1) ∧ o.vNew = vPred G path (i + 1) ∧
      o.dxNew = o.dx := by
  have hilt : i < path.length := by omega
  have h0 : (0 : ℕ) < path.length := by omega
  have hrowi := get?_eq_some_rowD path i hilt
  have hrowi1 := get?_eq_some_rowD path (i + 1) hi
  have hrowe := get?_eq_some_rowD path e he
  have hleni : (rowD path i).length = 4 + 3 * G := hw _ (rowD_mem path i hilt)
  have hleni1 : (rowD path (i + 1)).length = 4 + 3 * G :=
    hw _ (rowD_mem path (i + 1) hi)
  have hlene : (rowD path e).length = 4 + 3 * G := hw _ (rowD_mem path e he)
  have hlen0 : (rowD path 0).length = 4 + 3 * G := hw _ (rowD_mem path 0 h0)
  have htC : (rowD path i).get? G_TIME_IDX
      = some (qget (rowD path i) G_TIME_IDX) :=
    get?_eq_some_qget _ _ (by rw [hleni]; simp [G_TIME_IDX])
  have htN : (rowD path (i + 1)).get? G_TIME_IDX
      = some (qget (rowD path (i + 1)) G_TIME_IDX) :=
    get?_eq_some_qget _ _ (by rw [hleni1]; simp [G_TIME_IDX])
  have hposi := toVec3_posD G path i
    (by rw [hleni]; simp [G_POS_IDX, G_GATE_IDX, G_NUM_GATE_DIMS]; omega)
  have hposi1 := toVec3_posD G path (i + 1)
    (by rw [hleni1]; simp [G_POS_IDX, G_GATE_IDX, G_NUM_GATE_DIMS]; omega)
  have hpose := toVec3_posD G path e
    (by rw [hlene]; simp [G_POS_IDX, G_GATE_IDX, G_NUM_GATE_DIMS]; omega)
  have hj : find_seg_idx segs i < G := by
    obtain ⟨hlt, -⟩ := List.get?_eq_some.mp hseg
    omega
  have hgen := generate_gate_pos_zero mdl
    (qget (rowD path i) G_TIME_IDX * t_total) path (find_seg_idx segs i) h0
    (by rw [hlen0]; simp [G_GATE_IDX, G_NUM_GATE_DIMS]; omega)
  rw [hgate] at hgen
  simp only [corrStep, hrowi, hrowi1, htC, htN, hposi, hposi1, hseg, hrowe,
    hpose, hgen, Option.some_bind]
  have hdtD : qget (rowD path (i + 1)) G_TIME_IDX * t_total
      - qget (rowD path i) G_TIME_IDX * t_total = dtD path i := rfl
  have hv1 : (posD G path (i + 1) - posD G path i).divQ (dtD path i)
      = vPred G path (i + 1) := rfl
  have ha : (vPred G path (i + 1) - vPred G path i).divQ (dtD path i)
      = aPred G path i := rfl
  have hclip : clip (mdl.sq (aPred G path i).normSq) (-amax) amax
      = mdl.sq (aPred G path i).normSq := by
    rw [clip, max_eq_left (by linarith), min_eq_left hsmax]
  have hdiv : mdl.sq (aPred G path i).normSq / mdl.sq (aPred G path i).normSq
      = 1 := div_self hsne
  have hdv : Vec3.scale (dtD path i) (aPred G path i)
      = vPred G path (i + 1) - vPred G path i :=
    Vec3.scale_divQ_cancel (dtD path i) hdt _
  have hdx2 : Vec3.scale (dtD path i) (vPred G path (i + 1))
      = posD G path (i + 1) - posD G path i :=
    Vec3.scale_divQ_cancel (dtD path i) hdt _
  refine ⟨_, rfl, ?_, ?_, ?_⟩ <;>
    simp only [Vec3.add_zero, Vec3.sub_self, hdtD, hv1, ha, hclip, hdiv,
      Vec3.scale_one, hdv, Vec3.add_sub_cancel, hdx2]

/-- The whole loop under the identity conditions, from any start index. -/
theorem corrSteps_identity (mdl : FloatModel) (amax : ℚ) (G : ℕ)
    (segs : List ℕ) (path : Matrix)
    (hw : ∀ r ∈ path, r.length = 4 + 3 * G)
    (hG : segs.length = G)
    (hstep : ∀ i, i + 1 < path.length →
      dtD path i ≠ 0 ∧
      (∃ e, segs.get? (find_seg_idx segs i) = some e ∧ e < path.length ∧
        gateBaseD path (find_seg_idx segs i) = posD G path e) ∧
      0 ≤ mdl.sq (aPred G path i).normSq ∧
      mdl.sq (aPred G path i).normSq ≠ 0 ∧
      mdl.sq (aPred G path i).normSq ≤ amax) :
    ∀ count i0, i0 + count ≤ path.length - 1 →
      ∃ l, corrSteps mdl 0 amax G segs path count i0
          ⟨Vec3.zero, vPred G path i0⟩ = some l ∧
        l.map StepOut.xNew = (List.range' (i0 + 1) count).map (posD G path) := by
  intro count
  induction count with
  | zero => intro i0 _; exact ⟨[], rfl, rfl⟩
  | succ n ih =>
      intro i0 hle
      have hi1 : i0 + 1 < path.length := by omega
      obtain ⟨hdt, ⟨e, hseg, he, hgate⟩, hs0, hsne, hsmax⟩ := hstep i0 hi1
      obtain ⟨o, ho, hx, hv, hdxeq⟩ :=
        corrStep_identity mdl amax G segs path i0 hw hG hi1 hdt e hseg he
          hgate hs0 hsne hsmax
      obtain ⟨rest, hrest, hmap⟩ := ih (i0 + 1) (by omega)
      have hstate :
      (⟨(⟨Vec3.zero, vPred G path i0⟩ : CorrState).x_path_offset
          + (o.dxNew - o.dx), o.vNew⟩ : CorrState)
        = ⟨Vec3.zero, vPred G path (i0 + 1)⟩ := by
        rw [hdxeq, hv, Vec3.sub_self, Vec3.add_zero]
      refine ⟨o :: rest, ?_, ?_⟩
      · rw [corrSteps, ho, Option.some_bind, hstate, hrest, Option.some_bind]
      · rw [List.map_cons, hx, hmap, List.range'_succ i0.succ n 1,
          List.map_cons]


theorem replace_pos_cols_length (numGates : ℕ) :
    ∀ (rows : Matrix) (ps : List Vec3),
      (replace_pos_cols numGates rows ps).length = min rows.length ps.length := by
  intro rows
  induction rows with
  | nil => intro ps; cases ps <;> simp [replace_pos_cols]
  | cons row rows ih =>
      intro ps
      cases ps with
      | nil => simp [replace_pos_cols]
      | cons q qs =>
          simp [replace_pos_cols, ih qs]
          omega

theorem replace_pos_cols_get? (numGates : ℕ) :
    ∀ (rows : Matrix) (ps : List Vec3) (i : ℕ) (r : List ℚ) (p : Vec3),
      rows.get? i = some r → ps.get? i = some p →
      (replace_pos_cols numGates rows ps).get? i
        = some (r.take (G_POS_IDX numGates) ++ [p.x, p.y, p.z]
            ++ r.drop (G_POS_IDX numGates + G_NUM_POS_DIMS)) := by
  intro rows
  induction rows with
  | nil => intro ps i r p hr; simp at hr
  | cons row rows ih =>
      intro ps i r p hr hp
      cases ps with
      | nil => simp at hp
      | cons q qs =>
          cases i with
          | zero =>
              have hr2 : row = r := by simpa using hr
              have hp2 : q = p := by simpa using hp
              subst hr2; subst hp2
              simp [replace_pos_cols]
          | succ m =>
              have hr2 : rows.get? m = some r := by simpa using hr
              have hp2 : qs.get? m = some p := by simpa using hp
              simpa [replace_pos_cols] using ih qs m r p hr2 hp2

theorem eval_detect3 : detect_segments sqVals 2 exPath3 = some [0, 3] := by
  norm_num [detect_segments, detectFrom, segment_end, gate_dists, cdist0,
    sumSqDiff, argmin, argminPair, sqVals, exPath3, G_POS_IDX, G_GATE_IDX,
    G_NUM_GATE_DIMS, G_TIME_IDX]

theorem eval_detect5 : detect_segments sqVals 2 exPath5 = some [2, 3] := by
  norm_num [detect_segments, detectFrom, segment_end, gate_dists, cdist0,
    sumSqDiff, argmin, argminPair, sqVals, exPath5, G_POS_IDX, G_GATE_IDX,
    G_NUM_GATE_DIMS, G_TIME_IDX]

theorem eval_detect6 : detect_segments sqVals 2 exPath6 = some [1, 2] := by
  norm_num [detect_segments, detectFrom, segment_end, gate_dists, cdist0,
    sumSqDiff, argmin, argminPair, sqVals, exPath6, G_POS_IDX, G_GATE_IDX,
    G_NUM_GATE_DIMS, G_TIME_IDX]

theorem eval_detect7 : detect_segments sqVals 2 exPath7 = some [1, 2] := by
  norm_num [detect_segments, detectFrom, segment_end, gate_dists, cdist0,
    sumSqDiff, argmin, argminPair, sqVals, exPath7, G_POS_IDX, G_GATE_IDX,
    G_NUM_GATE_DIMS, G_TIME_IDX]

theorem eval_detectDup : detect_segments sqVals 2 exPathDup = some [1, 2] := by
  norm_num [detect_segments, detectFrom, segment_end, gate_dists, cdist0,
    sumSqDiff, argmin, argminPair, sqVals, exPathDup, G_POS_IDX, G_GATE_IDX,
    G_NUM_GATE_DIMS, G_TIME_IDX]

theorem eval_detect9 : detect_segments sqVals 2 exPath9 = some [0, 3] := by
  norm_num [detect_segments, detectFrom, segment_end, gate_dists, cdist0,
    sumSqDiff, argmin, argminPair, sqVals, exPath9, G_POS_IDX, G_GATE_IDX,
    G_NUM_GATE_DIMS, G_TIME_IDX]

theorem eval_dists9 : gate_dists sqVals 2 exPath9 0 = some [1, 1, 8] := by
  norm_num [gate_dists, cdist0, sumSqDiff, sqVals, exPath9, G_POS_IDX,
    G_GATE_IDX, G_NUM_GATE_DIMS, G_TIME_IDX]

theorem eval_corrStep5a :
    corrStep floatModel0 A_src a_max_src 2 [2, 3] exPath5
      ⟨Vec3.zero, Vec3.zero⟩ 0 = some exStep5a := by
  norm_num [corrStep, find_seg_idx, generate_gate_pos, toVec3, clip, sqVals,
    floatModel0, A_src, a_max_src, t_total, exPath5, exStep5a, G_POS_IDX,
    G_GATE_IDX, G_NUM_GATE_DIMS, G_NUM_POS_DIMS, G_TIME_IDX, Vec3.add_def,
    Vec3.sub_def, Vec3.scale, Vec3.divQ, Vec3.normSq, Vec3.zero, min_def,
    max_def, List.findIdx?]

theorem eval_corrStep5b :
    corrStep floatModel0 A_src a_max_src 2 [2, 3] exPath5
      ⟨⟨0, 0, 0⟩, ⟨1/10, 0, 0⟩⟩ 1 = some exStep5b := by
  norm_num [corrStep, find_seg_idx, generate_gate_pos, toVec3, clip, sqVals,
    floatModel0, A_src, a_max_src, t_total, exPath5, exStep5b, G_POS_IDX,
    G_GATE_IDX, G_NUM_GATE_DIMS, G_NUM_POS_DIMS, G_TIME_IDX, Vec3.add_def,
    Vec3.sub_def, Vec3.scale, Vec3.divQ, Vec3.normSq, Vec3.zero, min_def,
    max_def, List.findIdx?]

theorem eval_records5 :
    correction_records floatModel0 A_src a_max_src 2 exPath5
      = some [exStep5a, exStep5b] := by
  have hst : (⟨(⟨Vec3.zero, Vec3.zero⟩ : CorrState).x_path_offset
      + (exStep5a.dxNew - exStep5a.dx), exStep5a.vNew⟩ : CorrState)
      = ⟨⟨0, 0, 0⟩, ⟨1/10, 0, 0⟩⟩ := by
    norm_num [exStep5a, Vec3.add_def, Vec3.sub_def, Vec3.zero]
  have hdet : detect_segments floatModel0.sq 2 exPath5 = some [2, 3] :=
    eval_detect5
  rw [correction_records, hdet, Option.some_bind,
    show exPath5.length - 1 = 1 + 1 from rfl,
    corrSteps, eval_corrStep5a, Option.some_bind, hst,
    show (1 : ℕ) = 0 + 1 from rfl,
    corrSteps, eval_corrStep5b, Option.some_bind, corrSteps,
    Option.some_bind]
  rfl

theorem eval_corrStep3a :
    corrStep floatModel0 A_src a_max_src 2 [0, 3] exPath3
      ⟨Vec3.zero, Vec3.zero⟩ 0 = some exStep3a := by
  norm_num [corrStep, find_seg_idx, generate_gate_pos, toVec3, clip, sqVals,
    floatModel0, A_src, a_max_src, t_total, exPath3, exStep3a, G_POS_IDX,
    G_GATE_IDX, G_NUM_GATE_DIMS, G_NUM_POS_DIMS, G_TIME_IDX, Vec3.add_def,
    Vec3.sub_def, Vec3.scale, Vec3.divQ, Vec3.normSq, Vec3.zero, min_def,
    max_def, List.findIdx?]

/-- Step 1 of exPath3 selects the last segment; its end index 3 equals the
    path length, and path[3] does not exist: the step aborts (IndexError). -/
theorem eval_corrStep3b :
    corrStep floatModel0 A_src a_max_src 2 [0, 3] exPath3
      ⟨⟨0, 0, 0⟩, ⟨1/10, 0, 0⟩⟩ 1 = none := rfl

theorem eval_main3 : main floatModel0 A_src a_max_src 2 exPath3 = none := by
  have hst : (⟨(⟨Vec3.zero, Vec3.zero⟩ : CorrState).x_path_offset
      + (exStep3a.dxNew - exStep3a.dx), exStep3a.vNew⟩ : CorrState)
      = ⟨⟨0, 0, 0⟩, ⟨1/10, 0, 0⟩⟩ := by
    norm_num [exStep3a, Vec3.add_def, Vec3.sub_def, Vec3.zero]
  have hdet : detect_segments floatModel0.sq 2 exPath3 = some [0, 3] :=
    eval_detect3
  rw [main, correction_records, hdet, Option.some_bind,
    show exPath3.length - 1 = 1 + 1 from rfl,
    corrSteps, eval_corrStep3a, Option.some_bind, hst,
    show (1 : ℕ) = 0 + 1 from rfl,
    corrSteps, eval_corrStep3b]
  rfl

theorem eval_corrStep7 :
    corrStep floatModel0 0 100 2 [1, 2] exPath7
      ⟨Vec3.zero, Vec3.zero⟩ 0 = some exStep7 := by
  norm_num [corrStep, find_seg_idx, generate_gate_pos, toVec3, clip, sqVals,
    floatModel0, t_total, exPath7, exStep7, G_POS_IDX,
    G_GATE_IDX, G_NUM_GATE_DIMS, G_NUM_POS_DIMS, G_TIME_IDX, Vec3.add_def,
    Vec3.sub_def, Vec3.scale, Vec3.divQ, Vec3.normSq, Vec3.zero, min_def,
    max_def, List.findIdx?]

theorem eval_main7 : main floatModel0 0 100 2 exPath7 = some [⟨5, 0, 0⟩] := by
  have hdet : detect_segments floatModel0.sq 2 exPath7 = some [1, 2] :=
    eval_detect7
  rw [main, correction_records, hdet, Option.some_bind,
    show exPath7.length - 1 = 0 + 1 from rfl,
    corrSteps, eval_corrStep7, Option.some_bind, corrSteps]
  rfl

theorem eval_corrStepDup :
    corrStep floatModel0 A_src a_max_src 2 [1, 2] exPathDup
      ⟨Vec3.zero, Vec3.zero⟩ 0 = some exStepDup := by
  norm_num [corrStep, find_seg_idx, generate_gate_pos, toVec3, clip, sqVals,
    floatModel0, A_src, a_max_src, t_total, exPathDup, exStepDup, G_POS_IDX,
    G_GATE_IDX, G_NUM_GATE_DIMS, G_NUM_POS_DIMS, G_TIME_IDX, Vec3.add_def,
    Vec3.sub_def, Vec3.scale, Vec3.divQ, Vec3.normSq, Vec3.zero, min_def,
    max_def, List.findIdx?]

theorem eval_mainDup :
    main floatModel0 A_src a_max_src 2 exPathDup = some [⟨0, 0, 0⟩] := by
  have hdet : detect_segments floatModel0.sq 2 exPathDup = some [1, 2] :=
    eval_detectDup
  rw [main, correction_records, hdet, Option.some_bind,
    show exPathDup.length - 1 = 0 + 1 from rfl,
    corrSteps, eval_corrStepDup, Option.some_bind, corrSteps]
  rfl

/- Claim theorems. -/

/-- C1 (counterexample): exPath3 is a valid 3-sample Path, yet the corrector
    emits no corrected path at all: step 1 falls into the last segment, whose
    end index 3 equals the path length, and the target read
    path[segments[seg_idx]] is out of range (IndexError), aborting the run
    instead of producing len(path)-1 = 2 positions. -/
theorem claim_C1_counterexample :
    main floatModel0 A_src a_max_src 2 exPath3 = none :=
  eval_main3

/-- C1 (amended): whenever the main correction loop completes (no step reads
    the out-of-range last-segment target), the corrected path holds exactly
    len(path)-1 positions, one per step i in 0 .. len(path)-2, none for the
    final sample. -/
theorem claim_C1 (mdl : FloatModel) (A a_max : ℚ) (numGates : ℕ)
    (path : Matrix) (out : List Vec3)
    (h : main mdl A a_max numGates path = some out) :
    out.length = path.length - 1 :=
  main_length mdl A a_max numGates path out h

theorem claim_C1_witness :
    main floatModel0 A_src a_max_src 2 exPath5
        = some [⟨1, 0, 0⟩, ⟨2, 0, 0⟩] ∧
      ([(⟨1, 0, 0⟩ : Vec3), ⟨2, 0, 0⟩]).length = exPath5.length - 1 := by
  have hmain : main floatModel0 A_src a_max_src 2 exPath5
      = some [⟨1, 0, 0⟩, ⟨2, 0, 0⟩] := by
    rw [main, eval_records5]; rfl
  exact ⟨hmain, claim_C1 floatModel0 A_src a_max_src 2 exPath5 _ hmain⟩

/-- C2 (code bug): at step 1 of the run on exPath5 the pre-clamp acceleration
    is the zero vector and its computed norm is 0, yet the code divides the
    clipped norm by it unconditionally (ratio_unclipped = clipped / norm with
    norm = 0) and multiplies a_new by the result: there is no zero-norm skip.
    In IEEE arithmetic 0.0/0.0 is NaN (numpy emits a warning and continues),
    so a_new becomes a NaN vector instead of staying unchanged; this model
    follows the Lean convention 0/0 = 0, which is why the recorded ratio is 0.
    The float run of the real code reaches the same state: every value of this
    trace is exactly representable and every operation exact up to step 1's
    subtraction v_new - v_curr = 0. -/
theorem claim_C2 :
    (correction_records floatModel0 A_src a_max_src 2 exPath5).bind
        (fun l => l.get? 1) = some exStep5b ∧
      exStep5b.aNewPre = Vec3.zero ∧ exStep5b.aNewNorm = 0 ∧
      exStep5b.ratioUnclipped = exStep5b.aNewNormClipped / exStep5b.aNewNorm := by
  refine ⟨?_, rfl, rfl, ?_⟩
  · rw [eval_records5]; rfl
  · norm_num [exStep5b]

/-- C3 (code bug): on a Path with two identical timestamps (dt = 0) the
    corrector completes normally and returns a value; no DegenerateTimestep
    failure exists anywhere in the code.  The divisions by dt = 0 are carried
    out (numpy: inf/NaN plus a RuntimeWarning, control flow unaffected; this
    model: x / 0 = 0), and the loop then emits its len(path)-1 outputs. -/
theorem claim_C3 :
    (main floatModel0 A_src a_max_src 2 exPathDup).isSome = true ∧
      dtD exPathDup 0 = 0 := by
  refine ⟨?_, ?_⟩
  · rw [eval_mainDup]; rfl
  · norm_num [dtD, timeD, qget, rowD, exPathDup, t_total, G_TIME_IDX]

/-- C4 (counterexample): at step i = 1 of exPath3 the active-segment search
    selects the last segment (segments = [0, 3]), and the index used for the
    step-4 target lookup equals the path length 3 - not strictly less than it:
    the read path[3] is out of bounds. -/
theorem claim_C4_counterexample :
    target_index sqVals 2 exPath3 1 = some 3 ∧ exPath3.length = 3 := by
  constructor
  · rw [target_index, eval_detect3, Option.some_bind]; rfl
  · rfl

/-- C4 (amended): the step-4 target lookup index is a valid sample index
    whenever the selected segment is not the last one; the non-last segment
    ends are argmin sample indices and hence strictly below the path length.
    (When the last segment is selected the index is the path length itself and
    the lookup is out of bounds, as the counterexample shows.) -/
theorem claim_C4 (sq : ℚ → ℚ) (numGates : ℕ) (path : Matrix)
    (segs : List ℕ) (i j : ℕ)
    (hsegs : detect_segments sq numGates path = some segs)
    (hj : find_seg_idx segs i = j)
    (hlast : j + 1 < numGates) :
    ∃ e, segs.get? j = some e ∧ e < path.length := by
  have hlen := detect_segments_length sq numGates path segs hsegs
  have hget := detect_segments_get? sq numGates path segs hsegs j (by omega)
  rw [segment_end, if_neg (by omega)] at hget
  obtain ⟨v, hv⟩ : ∃ v, segs.get? j = some v :=
    ⟨_, List.get?_eq_get (by omega)⟩
  rw [hv] at hget
  obtain ⟨ds, hds, hargmin⟩ := Option.bind_eq_some.mp hget.symm
  obtain ⟨row0, hrow0, hcd⟩ := Option.bind_eq_some.mp hds
  obtain ⟨w, hw1, -, -⟩ := argmin_spec ds v hargmin
  obtain ⟨hvlen, -⟩ := List.get?_eq_some.mp hw1
  have hdslen := cdist0_length sq _ _ ds hcd
  refine ⟨v, hv, ?_⟩
  rw [hdslen, List.length_map] at hvlen
  exact hvlen

theorem claim_C4_witness :
    ∃ e, ([2, 3] : List ℕ).get? 0 = some e ∧ e < exPath5.length :=
  claim_C4 sqVals 2 exPath5 [2, 3] 0 0 eval_detect5 rfl (by norm_num)

/-- C8: the gate-trajectory generator reads gate g's baseline position from
    sample 0 of the path, displaces exactly axis 1 (the y component) by
    A*sin(2*pi*f*t/t_total) with the hard-coded A = 0.02 = A_src and f = 4.0,
    and leaves the other two axes unchanged.  It is a pure function of
    (t, path, segment number) - determinism - and the source copies the row
    slice before the += so the path matrix is never mutated. -/
theorem claim_C8 (mdl : FloatModel) (t : ℚ) (path : Matrix) (seg : ℕ)
    (row0 : List ℚ) (gp : Vec3)
    (h0 : path.get? 0 = some row0)
    (hgp : toVec3 ((row0.drop (G_GATE_IDX + G_NUM_GATE_DIMS * seg)).take
      G_NUM_POS_DIMS) = some gp) :
    generate_gate_pos mdl A_src t path seg
      = some ⟨gp.x, gp.y + A_src * mdl.sinF (2 * mdl.piF * 4 * t / t_total),
          gp.z⟩ := by
  rw [generate_gate_pos, h0, Option.some_bind]
  simp only [hgp, Option.some_bind]

theorem claim_C8_witness :
    generate_gate_pos floatModel0 A_src (1/4) exPath5 1
      = some ⟨0, 0 + A_src * floatModel0.sinF
          (2 * floatModel0.piF * 4 * (1/4) / t_total), 0⟩ :=
  claim_C8 floatModel0 (1/4) exPath5 1 _ ⟨0, 0, 0⟩ rfl rfl

/-- C5 (counterexample): exPath7 is a valid 2-sample Path, corrected with
    amplitude A = 0 and a generously large a_max = 100 (the clamp is inactive:
    the step's acceleration norm is 1/20).  Still the corrected position is
    (5,0,0), not the original tooltip position (1,0,0) of sample 1: since the
    recorded gate-0 position (5,0,0) differs from the recorded tooltip
    position at segment 0's end, the step-6 shift x_gate - x_target is
    (4,0,0), not zero, so zero amplitude alone is no identity correction. -/
theorem claim_C5_counterexample :
    main floatModel0 0 100 2 exPath7 = some [⟨5, 0, 0⟩] ∧
      posD 2 exPath7 1 = ⟨1, 0, 0⟩ ∧
      main floatModel0 0 100 2 exPath7 ≠ some [posD 2 exPath7 1] := by
  have hpos : posD 2 exPath7 1 = ⟨1, 0, 0⟩ := by
    norm_num [posD, qget, rowD, exPath7, G_POS_IDX, G_GATE_IDX,
      G_NUM_GATE_DIMS]
  refine ⟨eval_main7, hpos, ?_⟩
  rw [eval_main7, hpos]
  simp [Vec3.mk.injEq]

/-- C5 (amended): with zero oscillation amplitude the corrector reproduces
    exactly the recorded tooltip positions of samples 1 .. len(path)-1,
    provided additionally that at every step the active-segment target index
    is in range (the last segment never activates), the gate position recorded
    at sample 0 for the active segment coincides with the recorded tooltip
    position at that segment's end, consecutive timestamps differ (dt not 0),
    and the norm computed for the clamp is positive and at most a_max (the
    clamp is inactive, as the claim assumes, and the zero-norm 0/0 NaN defect
    of the clamp stage is not hit). -/
theorem claim_C5 (mdl : FloatModel) (a_max : ℚ) (numGates : ℕ) (path : Matrix)
    (segs : List ℕ)
    (hsegs : detect_segments mdl.sq numGates path = some segs)
    (hw : ∀ r ∈ path, r.length = 4 + 3 * numGates)
    (hstep : ∀ i, i + 1 < path.length →
      dtD path i ≠ 0 ∧
      (∃ e, segs.get? (find_seg_idx segs i) = some e ∧ e < path.length ∧
        gateBaseD path (find_seg_idx segs i) = posD numGates path e) ∧
      0 ≤ mdl.sq (aPred numGates path i).normSq ∧
      mdl.sq (aPred numGates path i).normSq ≠ 0 ∧
      mdl.sq (aPred numGates path i).normSq ≤ a_max) :
    main mdl 0 a_max numGates path
      = some ((List.range' 1 (path.length - 1)).map (posD numGates path)) := by
  have hG := detect_segments_length mdl.sq numGates path segs hsegs
  obtain ⟨l, hl, hmap⟩ :=
    corrSteps_identity mdl a_max numGates segs path hw hG hstep
      (path.length - 1) 0 (by omega)
  have hl2 : corrSteps mdl 0 a_max numGates segs path (path.length - 1) 0
      ⟨Vec3.zero, Vec3.zero⟩ = some l := hl
  simp only [main, correction_records, hsegs, Option.some_bind, hl2,
    Option.map_some']
  rw [hmap]

theorem claim_C5_witness :
    main floatModel0 0 100 2 exPath6
      = some ((List.range' 1 (exPath6.length - 1)).map (posD 2 exPath6)) := by
  refine claim_C5 floatModel0 100 2 exPath6 [1, 2] eval_detect6 ?_ ?_
  · simp [exPath6]
  · intro i hi
    have hi0 : i = 0 := by simp [exPath6] at hi; omega
    subst hi0
    refine ⟨?_, ⟨1, rfl, by norm_num [exPath6], ?_⟩, ?_, ?_, ?_⟩
    · norm_num [dtD, timeD, qget, rowD, exPath6, t_total, G_TIME_IDX]
    · norm_num [gateBaseD, posD, qget, rowD, exPath6, G_GATE_IDX,
        G_NUM_GATE_DIMS, G_POS_IDX, find_seg_idx, List.findIdx?]
    · norm_num [floatModel0, sqVals, aPred, vPred, posD, dtD, timeD, qget,
        rowD, exPath6, t_total, G_TIME_IDX, G_POS_IDX, G_GATE_IDX,
        G_NUM_GATE_DIMS, Vec3.sub_def, Vec3.divQ, Vec3.zero, Vec3.normSq]
    · norm_num [floatModel0, sqVals, aPred, vPred, posD, dtD, timeD, qget,
        rowD, exPath6, t_total, G_TIME_IDX, G_POS_IDX, G_GATE_IDX,
        G_NUM_GATE_DIMS, Vec3.sub_def, Vec3.divQ, Vec3.zero, Vec3.normSq]
    · norm_num [floatModel0, sqVals, aPred, vPred, posD, dtD, timeD, qget,
        rowD, exPath6, t_total, G_TIME_IDX, G_POS_IDX, G_GATE_IDX,
        G_NUM_GATE_DIMS, Vec3.sub_def, Vec3.divQ, Vec3.zero, Vec3.normSq]

/-- C6: whatever state a correction step runs from, if the pre-clamp
    acceleration norm the code computed is a nonzero exact nonnegative root of
    the squared norm, then the rescaled acceleration a_new (the one used for
    re-integration) has Euclidean norm at most a_max: any nonnegative exact
    root of its squared norm is bounded by a_max. -/
theorem claim_C6 (mdl : FloatModel) (A a_max : ℚ) (numGates : ℕ)
    (segments : List ℕ) (path : Matrix) (st : CorrState) (i : ℕ)
    (o : StepOut) (m : ℚ)
    (ho : corrStep mdl A a_max numGates segments path st i = some o)
    (hamax : 0 ≤ a_max)
    (hroot : o.aNewNorm ^ 2 = o.aNewPre.normSq)
    (hpos : 0 ≤ o.aNewNorm)
    (hne : o.aNewNorm ≠ 0)
    (hm : 0 ≤ m)
    (hm2 : m ^ 2 = o.aNew.normSq) :
    m ≤ a_max := by
  obtain ⟨-, hclip, hratio, haNew⟩ :=
    corrStep_fields mdl A a_max numGates segments path st i o ho
  have hcb : -a_max ≤ o.aNewNormClipped ∧ o.aNewNormClipped ≤ a_max := by
    rw [hclip, clip]
    constructor
    · exact le_min (le_max_right _ _) (by linarith)
    · exact min_le_right _ _
  have hmsq : m ^ 2 = o.aNewNormClipped ^ 2 := by
    rw [hm2, haNew, Vec3.normSq_scale, hratio, ← hroot]
    field_simp
  nlinarith [hcb.1, hcb.2, hmsq, hm, hamax]

theorem claim_C6_witness :
    corrStep floatModel0 0 100 2 [1, 2] exPath7 ⟨Vec3.zero, Vec3.zero⟩ 0
        = some exStep7 ∧ (1 : ℚ) / 20 ≤ 100 := by
  refine ⟨eval_corrStep7, ?_⟩
  refine claim_C6 floatModel0 0 100 2 [1, 2] exPath7 ⟨Vec3.zero, Vec3.zero⟩ 0
    exStep7 (1/20) eval_corrStep7 (by norm_num) ?_ ?_ ?_ (by norm_num) ?_
  · norm_num [exStep7, Vec3.normSq]
  · norm_num [exStep7]
  · norm_num [exStep7]
  · norm_num [exStep7, Vec3.normSq]

/-- C7: when the configured gate count exceeds the number of gate sub-vectors
    a (nonempty, at-least-one-gate) Path encodes, the detector fails rather
    than silently truncating: the tooltip-column slice data[:, G_POS_IDX:] is
    then at most 1 column wide while the first gate's slice is 3 wide, and
    scipy's cdist raises its column-count ValueError (the InvalidConfiguration
    failure, modelled by none) on the very first non-last gate.  Gp is the
    number of encoded gates (at least 1 per the spec's data model) and r the
    width of the optional trailing rating column. -/
theorem claim_C7 (sq : ℚ → ℚ) (numGates Gp r : ℕ) (data : Matrix)
    (hGp : 1 ≤ Gp) (hGpG : Gp < numGates) (hr : r ≤ 1)
    (hw : ∀ row ∈ data, row.length = 4 + 3 * Gp + r)
    (hne : data ≠ []) :
    detect_segments sq numGates data = none := by
  obtain ⟨d, rest, rfl⟩ : ∃ d rest, data = d :: rest := by
    cases data with
    | nil => exact absurd rfl hne
    | cons d rest => exact ⟨d, rest, rfl⟩
  have hdlen := hw d (List.mem_cons_self d rest)
  obtain ⟨c, rfl⟩ : ∃ c, numGates = c + 2 := ⟨numGates - 2, by omega⟩
  have hgv : ((d.drop (G_GATE_IDX + 0 * 3)).take G_NUM_GATE_DIMS).length
      = 3 := by
    simp [List.length_take, List.length_drop, hdlen, G_GATE_IDX,
      G_NUM_GATE_DIMS]
    omega
  have hpl : (d.drop (G_POS_IDX (c + 2))).length ≤ 1 := by
    simp [List.length_drop, hdlen, G_POS_IDX, G_GATE_IDX, G_NUM_GATE_DIMS]
    omega
  have hcd : cdist0 sq ((d :: rest).map (fun row =>
        row.drop (G_POS_IDX (c + 2))))
      ((d.drop (G_GATE_IDX + 0 * 3)).take G_NUM_GATE_DIMS) = none := by
    rw [cdist0, if_neg]
    rw [List.map_cons, List.all_cons]
    simp only [Bool.and_eq_true, beq_iff_eq]
    intro hconj
    rw [hgv] at hconj
    omega
  rw [detect_segments, detectFrom]
  rw [segment_end, if_neg (by omega)]
  rw [gate_dists, show ((d :: rest : Matrix).get? 0) = some d from rfl,
    Option.some_bind, hcd]
  rfl

theorem claim_C7_witness :
    detect_segments sqVals 2 [[0, 0, 0, 0, 0, 0, 0]] = none :=
  claim_C7 sqVals 2 1 0 [[0, 0, 0, 0, 0, 0, 0]] (by norm_num) (by norm_num)
    (by norm_num) (by simp) (by simp)

/-- C9: for a non-last gate, the segment end _detect_segments returns is the
    first occurrence of the minimal entry of that gate's distance column: it
    attains the minimum m and is at most every index attaining m - in
    particular at most the smaller of any two tied indices i < j - and every
    strictly earlier entry strictly exceeds m (np.argmin's first-occurrence
    tie-break). -/
theorem claim_C9 (sq : ℚ → ℚ) (numGates : ℕ) (data : Matrix)
    (segs : List ℕ) (g : ℕ) (ds : List ℚ) (i j : ℕ) (m : ℚ)
    (hsegs : detect_segments sq numGates data = some segs)
    (hg : g + 1 < numGates)
    (hds : gate_dists sq numGates data g = some ds)
    (hij : i < j)
    (hi : ds.get? i = some m)
    (hj : ds.get? j = some m)
    (hmin : ∀ k v, ds.get? k = some v → m ≤ v) :
    ∃ e, segs.get? g = some e ∧ ds.get? e = some m ∧ e ≤ i ∧
      ∀ k v, k < e → ds.get? k = some v → m < v := by
  have hlen := detect_segments_length sq numGates data segs hsegs
  have hget := detect_segments_get? sq numGates data segs hsegs g (by omega)
  rw [segment_end, if_neg (by omega), hds, Option.some_bind] at hget
  obtain ⟨v, hv⟩ : ∃ v, segs.get? g = some v :=
    ⟨_, List.get?_eq_get (by omega)⟩
  rw [hv] at hget
  obtain ⟨w, hw1, hw2, hw3⟩ := argmin_spec ds v hget.symm
  have hwm : w = m := le_antisymm (hw2 i m hi) (hmin v w hw1)
  subst hwm
  refine ⟨v, hv, hw1, ?_, ?_⟩
  · by_contra hlt
    exact absurd (hw3 i (by omega) w hi) (lt_irrefl w)
  · intro k vk hk hvk
    exact hw3 k hk vk hvk

theorem claim_C9_witness :
    ∃ e, ([0, 3] : List ℕ).get? 0 = some e ∧
      ([1, 1, 8] : List ℚ).get? e = some 1 ∧ e ≤ 0 ∧
      ∀ k v, k < e → ([1, 1, 8] : List ℚ).get? k = some v → 1 < v := by
  refine claim_C9 sqVals 2 exPath9 [0, 3] 0 [1, 1, 8] 0 1 1 eval_detect9
    (by norm_num) eval_dists9 (by norm_num) rfl rfl ?_
  intro k v h
  match k with
  | 0 => simp at h; norm_num [← h]
  | 1 => simp at h; norm_num [← h]
  | 2 => simp at h; norm_num [← h]
  | (n + 3) => simp [List.get?] at h

theorem drop_append_of_length (l1 l2 : List ℚ) (n : ℕ)
    (h : l1.length = n) : (l1 ++ l2).drop n = l2 := by
  subst h
  exact List.drop_left l1 l2

/-- C10: when the corrector completes, the companion matrix
    full_path = path[:-1].copy(); full_path[:, pos cols] = new_path has
    exactly len(path)-1 rows; row i keeps every column of input sample i
    outside the tooltip block - the time column, all gate columns, and any
    trailing rating column - bit for bit, has the same width, and carries the
    corrected position in the tooltip columns.  The input path itself is never
    written: the source mutates only the copy, and the embedding is a pure
    function of the path. -/
theorem claim_C10 (mdl : FloatModel) (A a_max : ℚ) (numGates : ℕ) (W : ℕ)
    (path : Matrix) (out : List Vec3)
    (hrun : main mdl A a_max numGates path = some out)
    (hw : ∀ r ∈ path, r.length = W)
    (hW : G_POS_IDX numGates + G_NUM_POS_DIMS ≤ W) :
    (full_record numGates path out).length = path.length - 1 ∧
    ∀ i, i < path.length - 1 →
      ∃ fr p, (full_record numGates path out).get? i = some fr ∧
        out.get? i = some p ∧
        fr.length = (rowD path i).length ∧
        (∀ c, c < G_POS_IDX numGates → fr.get? c = (rowD path i).get? c) ∧
        (∀ c, G_POS_IDX numGates + G_NUM_POS_DIMS ≤ c →
          fr.get? c = (rowD path i).get? c) ∧
        (fr.drop (G_POS_IDX numGates)).take G_NUM_POS_DIMS
          = [p.x, p.y, p.z] := by
  have hout := main_length mdl A a_max numGates path out hrun
  have hp3 : G_NUM_POS_DIMS = 3 := rfl
  constructor
  · rw [full_record, replace_pos_cols_length]
    simp [List.length_take, hout]
  · intro i hi
    have hin : i < path.length := by omega
    have hrow : (path.take (path.length - 1)).get? i = some (rowD path i) := by
      rw [List.get?_take hi]
      exact get?_eq_some_rowD path i hin
    obtain ⟨p, hp⟩ : ∃ p, out.get? i = some p :=
      ⟨_, List.get?_eq_get (by omega)⟩
    have hfr := replace_pos_cols_get? numGates (path.take (path.length - 1))
      out i (rowD path i) p hrow hp
    set r := rowD path i with hr
    have hrlen : r.length = W := hw r (rowD_mem path i hin)
    have htakelen : (r.take (G_POS_IDX numGates)).length
        = G_POS_IDX numGates := by
      simp [List.length_take, hrlen]
      omega
    refine ⟨_, p, hfr, hp, ?_, ?_, ?_, ?_⟩
    · simp only [List.length_append, List.length_take, List.length_drop,
        hrlen, List.length_cons, List.length_nil, hp3]
      omega
    · intro c hc
      have h1 : c < (r.take (G_POS_IDX numGates)
          ++ [p.x, p.y, p.z]).length := by
        simp [List.length_append, htakelen]
        omega
      rw [List.get?_append h1,
        List.get?_append (by rw [htakelen]; exact hc),
        List.get?_take hc]
    · intro c hc
      have h2 : (r.take (G_POS_IDX numGates) ++ [p.x, p.y, p.z]).length
          ≤ c := by
        simp [List.length_append, htakelen]
        omega
      rw [List.get?_append_right h2, List.get?_drop]
      congr 1
      simp only [List.length_append, htakelen, List.length_cons,
        List.length_nil, hp3]
      omega
    · rw [List.append_assoc, drop_append_of_length _ _ _ htakelen]
      rfl

theorem claim_C10_witness :
    (full_record 2 exPath5 [⟨1, 0, 0⟩, ⟨2, 0, 0⟩]).length
        = exPath5.length - 1 ∧
      ∀ i, i < exPath5.length - 1 →
        ∃ fr p, (full_record 2 exPath5 [⟨1, 0, 0⟩, ⟨2, 0, 0⟩]).get? i
            = some fr ∧
          ([(⟨1, 0, 0⟩ : Vec3), ⟨2, 0, 0⟩]).get? i = some p ∧
          fr.length = (rowD exPath5 i).length ∧
          (∀ c, c < G_POS_IDX 2 → fr.get? c = (rowD exPath5 i).get? c) ∧
          (∀ c, G_POS_IDX 2 + G_NUM_POS_DIMS ≤ c →
            fr.get? c = (rowD exPath5 i).get? c) ∧
          (fr.drop (G_POS_IDX 2)).take G_NUM_POS_DIMS = [p.x, p.y, p.z] := by
  have hmain : main floatModel0 A_src a_max_src 2 exPath5
      = some [⟨1, 0, 0⟩, ⟨2, 0, 0⟩] := by
    rw [main, eval_records5]; rfl
  exact claim_C10 floatModel0 A_src a_max_src 2 10 exPath5 _ hmain
    (by simp [exPath5]) (by norm_num [G_POS_IDX, G_GATE_IDX, G_NUM_GATE_DIMS,
      G_NUM_POS_DIMS])

end SurgicalSim
